import Mathlib

/-!
Shallow embedding of the `@u17g/deferrable` execution engine (src/index.ts).

The repository's source file contains two historical variants of the exported
`deferrable` function: the first (index.ts:42-59) swallows errors thrown by
deferred callbacks (`catch { }`), the second (index.ts:130-151) rethrows them
(`catch (error) { throw error }`). Both variants share `ok`, `failure` and
`wrap`, and both drive the same drain loop: pop the most recently registered
callback, invoke it with the captured result, repeat while the stack is
non-empty.

Modelling choices, faithful to the source:
* A JavaScript value that may be `undefined` is an `Option`; `none` is the
  literal `undefined`.
* The two-slot tuple `Result<T, E> = [value, error]` is `JSResult`, a pair of
  such slots with no tag; the engine detects failure by the runtime test
  `error !== undefined`, i.e. by matching the `error` slot against `none`.
* A promise settlement is `Except (Option E) (Option T)`: `.ok v` for a
  resolution with the value `v`, `.error e` for a rejection with the reason
  `e` (either of which may be the literal `undefined`).
* A deferred callback is modelled extensionally by what it does when invoked
  with the captured result: the callbacks it registers via `defer` before
  finishing (pushed onto the stack in that order), and whether it returns
  normally or throws.  A ghost `name` records invocation order in a trace.
* The drain loop can diverge in JavaScript (a callback may keep registering
  new callbacks), so the loop is given `fuel`; `none` means the fuel ran out.
-/

namespace Deferrable

/-- The runtime shape of `Result<T, E> = [value, error]` (index.ts:61): a
two-slot tuple whose slots hold JavaScript values that may each be
`undefined` (`none`).  There is no tag: success and failure are
distinguished downstream only by testing the `error` slot. -/
structure JSResult (T E : Type) where
  value : Option T
  error : Option E
  deriving DecidableEq, Repr

/-- `ok(value)` (index.ts:91-93): builds `[value, undefined]`. -/
def ok {T E : Type} (value : Option T) : JSResult T E :=
  ⟨value, none⟩

/-- `failure(error)` (index.ts:95-97): builds `[undefined, error]`. -/
def failure {T E : Type} (error : Option E) : JSResult T E :=
  ⟨none, error⟩

/-- `wrap(promise)` (index.ts:99-106): awaits the promise and captures the
settlement as a `Result` tuple, `ok` on resolution, `failure` on rejection.
It is total by construction: the `try/catch` means the capture itself never
throws. -/
def wrap {T E : Type} (o : Except (Option E) (Option T)) : JSResult T E :=
  match o with
  | .ok v => ok v
  | .error e => failure e

/-- A deferred callback `exec` as held on the stack, modelled extensionally:
invoked with the captured result it performs some `defer` calls (the returned
list, pushed onto the stack in that order) and then either returns normally
(`none`) or throws a JavaScript value (`some thrown`; the thrown value may
itself be `undefined`).  `name` is a ghost label used only to record
invocation order. -/
inductive Action (T E : Type) where
  | mk (name : Nat) (run : JSResult T E → List (Action T E) × Option (Option E)) : Action T E

/-- The ghost label of a callback. -/
def Action.name {T E : Type} : Action T E → Nat
  | .mk n _ => n

/-- The behaviour of a callback at a given captured result. -/
def Action.run {T E : Type} : Action T E → JSResult T E → List (Action T E) × Option (Option E)
  | .mk _ f => f

/-- `defer = (exec) => { stack.push(exec) }` (index.ts:134-136), iterated over
a sequence of registrations in order.  The head of the list is the top of the
stack, so a push is a `cons`. -/
def pushAll {T E : Type} (stack : List (Action T E)) (regs : List (Action T E)) :
    List (Action T E) :=
  regs.foldl (fun acc a => a :: acc) stack

/-- The drain loop of the second `deferrable` variant (index.ts:139-146):
`while (stack.length) { const exec = stack.pop()!; try { await exec(result) }
catch (error) { throw error } }`.  Returns the invocation trace (the ghost
name of each invoked callback paired with the argument it received, in
invocation order) together with `some thrown` when a callback threw (the loop
rethrows, abandoning the rest of the stack) or `none` when the stack was
drained completely.  The outer `none` means the fuel ran out. -/
def drain2 {T E : Type} : Nat → List (Action T E) → JSResult T E →
    Option (List (Nat × JSResult T E) × Option (Option E))
  | 0, _, _ => none
  | _ + 1, [], _ => some ([], none)
  | fuel + 1, a :: rest, result =>
    match a.run result with
    | (_, some thrown) => some ([(a.name, result)], some thrown)
    | (regs, none) =>
      match drain2 fuel (pushAll rest regs) result with
      | none => none
      | some (trace, d) => some ((a.name, result) :: trace, d)

/-- The drain loop of the first `deferrable` variant (index.ts:50-55):
identical, except that `catch { }` swallows the thrown value and the loop
continues with whatever the callback pushed before throwing. -/
def drain1 {T E : Type} : Nat → List (Action T E) → JSResult T E →
    Option (List (Nat × JSResult T E))
  | 0, _, _ => none
  | _ + 1, [], _ => some []
  | fuel + 1, a :: rest, result =>
    match a.run result with
    | (regs, _) =>
      match drain1 fuel (pushAll rest regs) result with
      | none => none
      | some trace => some ((a.name, result) :: trace)

/-- The caller-supplied `fn` (the unit of work), modelled extensionally: the
deferred callbacks it registers via `defer` before settling, in registration
order, and the settlement of the promise it returns. -/
structure UnitOfWork (T E : Type) where
  registered : List (Action T E)
  outcome : Except (Option E) (Option T)

/-- The second `deferrable` variant (index.ts:130-151): capture the unit of
work's settlement with `wrap`, drain the stack rethrowing any callback error,
then `if (mainError !== undefined) throw mainError; return value as T`.
Returns `none` when the drain loop exceeds `fuel`, otherwise the invocation
trace together with the settlement of the promise `deferrable` returns:
`.ok v` when it resolves with `v`, `.error thrown` when it rejects. -/
def deferrable2 {T E : Type} (fuel : Nat) (u : UnitOfWork T E) :
    Option (List (Nat × JSResult T E) × Except (Option E) (Option T)) :=
  let result := wrap u.outcome
  match drain2 fuel (pushAll [] u.registered) result with
  | none => none
  | some (trace, some thrown) => some (trace, .error thrown)
  | some (trace, none) =>
    match result.error with
    | some mainError => some (trace, .error (some mainError))
    | none => some (trace, .ok result.value)

/-- The first `deferrable` variant (index.ts:42-59): same shape, but the drain
loop swallows callback errors, so only the main error can reject the run. -/
def deferrable1 {T E : Type} (fuel : Nat) (u : UnitOfWork T E) :
    Option (List (Nat × JSResult T E) × Except (Option E) (Option T)) :=
  let result := wrap u.outcome
  match drain1 fuel (pushAll [] u.registered) result with
  | none => none
  | some trace =>
    match result.error with
    | some mainError => some (trace, .error (some mainError))
    | none => some (trace, .ok result.value)

/-- A deferred callback that registers nothing further: invoked, it inspects
the received result and either returns normally (`none`) or throws
(`some thrown`). -/
def plainAction {T E : Type} (p : Nat × (JSResult T E → Option (Option E))) : Action T E :=
  .mk p.1 (fun r => ([], p.2 r))

/-- The trace entry recorded for callback `p` when it is invoked with `r`. -/
def entryAt {T E : Type} (r : JSResult T E) (p : Nat × (JSResult T E → Option (Option E))) :
    Nat × JSResult T E :=
  (p.1, r)

/-! ## Supporting lemmas about the drain loop -/

/-- Pushing a sequence of registrations in order leaves them on top of the
stack in reverse order. -/
theorem pushAll_eq {T E : Type} (regs : List (Action T E)) :
    ∀ stack, pushAll stack regs = regs.reverse ++ stack := by
  induction regs with
  | nil => intro stack; rfl
  | cons a regs ih =>
    intro stack
    show pushAll (a :: stack) regs = (a :: regs).reverse ++ stack
    rw [ih]
    simp

/-- Draining a stack of plain callbacks that all return normally on `r`
invokes each of them, top down, with `r`, and reports no error.  Any fuel
strictly larger than the stack's height suffices. -/
theorem drain2_all_ok {T E : Type} (r : JSResult T E) :
    ∀ (l : List (Nat × (JSResult T E → Option (Option E)))) (fuel : Nat),
      (∀ p ∈ l, p.2 r = none) → l.length < fuel →
      drain2 fuel (l.map plainAction) r = some (l.map (entryAt r), none) := by
  intro l
  induction l with
  | nil =>
    intro fuel _ hf
    cases fuel with
    | zero => omega
    | succ fuel => rfl
  | cons p l ih =>
    intro fuel h hf
    cases fuel with
    | zero => simp at hf
    | succ fuel =>
      have hp : p.2 r = none := h p (List.mem_cons_self p l)
      have hlen : l.length < fuel := by
        simpa using Nat.lt_of_succ_lt_succ hf
      have ih2 := ih fuel (fun q hq => h q (List.mem_cons_of_mem p hq)) hlen
      simp only [List.map_cons, drain2, plainAction, Action.run, Action.name, hp]
      simp only [pushAll, List.foldl_nil, ih2, entryAt, List.map_cons]

/-- Draining a stack whose top segment `s1` consists of plain callbacks that
return normally on `r`, followed by a plain callback `x` that throws `d` on
`r`, invokes exactly `s1` then `x` and stops with `d`: nothing below `x` on
the stack is ever invoked. -/
theorem drain2_stops {T E : Type} (r : JSResult T E)
    (x : Nat × (JSResult T E → Option (Option E))) (d : Option E) (hx : x.2 r = some d) :
    ∀ (s1 s2 : List (Nat × (JSResult T E → Option (Option E)))) (fuel : Nat),
      (∀ p ∈ s1, p.2 r = none) → s1.length < fuel →
      drain2 fuel ((s1 ++ x :: s2).map plainAction) r =
        some (s1.map (entryAt r) ++ [entryAt r x], some d) := by
  intro s1
  induction s1 with
  | nil =>
    intro s2 fuel _ hf
    cases fuel with
    | zero => omega
    | succ fuel =>
      simp only [List.nil_append, List.map_cons, drain2, plainAction, Action.run, Action.name,
        hx, List.map_nil, entryAt]
  | cons p s1 ih =>
    intro s2 fuel h hf
    cases fuel with
    | zero => simp at hf
    | succ fuel =>
      have hp : p.2 r = none := h p (List.mem_cons_self p s1)
      have hlen : s1.length < fuel := by
        simpa using Nat.lt_of_succ_lt_succ hf
      have ih2 := ih s2 fuel (fun q hq => h q (List.mem_cons_of_mem p hq)) hlen
      simp only [List.cons_append, List.map_cons, drain2, plainAction, Action.run, Action.name, hp]
      simp only [pushAll, List.foldl_nil, List.append_eq] at ih2 ⊢
      simp only [ih2, entryAt, List.map_cons, List.cons_append]

/-- Conversely, if a drain of plain callbacks completes with no reported
error, then every callback on the stack returned normally on `r`. -/
theorem drain2_none_all_ok {T E : Type} (r : JSResult T E) :
    ∀ (l : List (Nat × (JSResult T E → Option (Option E)))) (fuel : Nat)
      (tr : List (Nat × JSResult T E)),
      drain2 fuel (l.map plainAction) r = some (tr, none) →
      ∀ p ∈ l, p.2 r = none := by
  intro l
  induction l with
  | nil => intro fuel tr _ p hp; simp at hp
  | cons q l ih =>
    intro fuel tr hdrain p hp
    cases fuel with
    | zero => simp [drain2] at hdrain
    | succ fuel =>
      simp only [List.map_cons, drain2, plainAction, Action.run, Action.name] at hdrain
      cases hq : q.2 r with
      | some thrown =>
        rw [hq] at hdrain
        simp at hdrain
      | none =>
        rw [hq] at hdrain
        simp only [pushAll, List.foldl_nil] at hdrain
        cases hrec : drain2 fuel (l.map plainAction) r with
        | none => rw [hrec] at hdrain; simp at hdrain
        | some res =>
          rw [hrec] at hdrain
          obtain ⟨trace, dd⟩ := res
          simp only at hdrain
          have hd : dd = none := by
            have := congrArg (fun o => Option.map (fun q : _ × _ => q.2) o) hdrain
            simpa using this
          subst hd
          rcases List.mem_cons.mp hp with hcase | hcase
          · subst hcase; exact hq
          · exact ih fuel trace hrec p hcase

/-- The stack built by registering the plain callbacks `R` in order holds them
in reverse registration order, top first. -/
theorem stack_of_plain {T E : Type} (R : List (Nat × (JSResult T E → Option (Option E)))) :
    pushAll ([] : List (Action T E)) (R.map plainAction) = R.reverse.map plainAction := by
  rw [pushAll_eq]
  simp

/-- If the drain loop rethrows a callback's error, `deferrable` rejects with
exactly that thrown value. -/
theorem deferrable2_drain_thrown {T E : Type} (fuel : Nat) (u : UnitOfWork T E)
    (tr : List (Nat × JSResult T E)) (thrown : Option E)
    (h : drain2 fuel (pushAll [] u.registered) (wrap u.outcome) = some (tr, some thrown)) :
    deferrable2 fuel u = some (tr, .error thrown) := by
  simp only [deferrable2, h]

/-- If the drain loop completes and the captured result has a defined error
slot, `deferrable` rejects with that main error. -/
theorem deferrable2_drain_done_mainerr {T E : Type} (fuel : Nat) (u : UnitOfWork T E)
    (tr : List (Nat × JSResult T E)) (e : E)
    (h : drain2 fuel (pushAll [] u.registered) (wrap u.outcome) = some (tr, none))
    (he : (wrap u.outcome).error = some e) :
    deferrable2 fuel u = some (tr, .error (some e)) := by
  simp only [deferrable2, h, he]

/-- If the drain loop completes and the captured result's error slot is
`undefined`, `deferrable` resolves with the captured value slot. -/
theorem deferrable2_drain_done_ok {T E : Type} (fuel : Nat) (u : UnitOfWork T E)
    (tr : List (Nat × JSResult T E))
    (h : drain2 fuel (pushAll [] u.registered) (wrap u.outcome) = some (tr, none))
    (he : (wrap u.outcome).error = none) :
    deferrable2 fuel u = some (tr, .ok (wrap u.outcome).value) := by
  simp only [deferrable2, h, he]

/-- Inversion: a resolving run means the drain loop completed with no callback
error, the captured error slot was `undefined`, and the resolved value is the
captured value slot. -/
theorem deferrable2_ok_inv {T E : Type} (fuel : Nat) (u : UnitOfWork T E)
    (tr : List (Nat × JSResult T E)) (v : Option T)
    (h : deferrable2 fuel u = some (tr, .ok v)) :
    drain2 fuel (pushAll [] u.registered) (wrap u.outcome) = some (tr, none) ∧
      (wrap u.outcome).error = none ∧ (wrap u.outcome).value = v := by
  simp only [deferrable2] at h
  cases hdrain : drain2 fuel (pushAll [] u.registered) (wrap u.outcome) with
  | none => rw [hdrain] at h; simp at h
  | some res =>
    obtain ⟨trace, dd⟩ := res
    rw [hdrain] at h
    cases dd with
    | some thrown => simp at h
    | none =>
      cases he : (wrap u.outcome).error with
      | some e => rw [he] at h; simp at h
      | none =>
        rw [he] at h
        simp only [Option.some.injEq, Prod.mk.injEq] at h
        obtain ⟨htr, hv⟩ := h
        subst htr
        refine ⟨rfl, rfl, ?_⟩
        exact Except.ok.inj hv

/-! ## Claim theorems -/

/-- Claim C4: for every unit of work that registers the plain deferred
callbacks `R` (in registration order), all of which return normally on the
captured result, the engine invokes them in exactly the reverse of
registration order, and the argument passed to each invoked callback is the
captured result `wrap o` of the unit of work. -/
theorem c4_lifo_order {T E : Type} (R : List (Nat × (JSResult T E → Option (Option E))))
    (o : Except (Option E) (Option T)) (fuel : Nat)
    (h : ∀ p ∈ R, p.2 (wrap o) = none) (hf : R.length < fuel) :
    ∃ out, deferrable2 fuel ⟨R.map plainAction, o⟩ =
      some (R.reverse.map (entryAt (wrap o)), out) := by
  have hmem : ∀ p ∈ R.reverse, p.2 (wrap o) = none := fun p hp => h p (List.mem_reverse.mp hp)
  have hlen : R.reverse.length < fuel := by simpa using hf
  have hall := drain2_all_ok (wrap o) R.reverse fuel hmem hlen
  have hdrain : drain2 fuel (pushAll ([] : List (Action T E)) (R.map plainAction)) (wrap o) =
      some (R.reverse.map (entryAt (wrap o)), none) := by
    rw [stack_of_plain]
    exact hall
  cases he : (wrap o).error with
  | none =>
    exact ⟨.ok (wrap o).value, deferrable2_drain_done_ok fuel ⟨R.map plainAction, o⟩ _ hdrain he⟩
  | some e =>
    exact ⟨.error (some e),
      deferrable2_drain_done_mainerr fuel ⟨R.map plainAction, o⟩ _ e hdrain he⟩

/-- Claim C5: if the unit of work resolves with the value `v` and every
registered callback returns normally on the captured result (including the
case of zero callbacks), the run resolves with exactly `v`, and every invoked
callback observes the tuple `[v, undefined]`. -/
theorem c5_success_passthrough {T E : Type}
    (R : List (Nat × (JSResult T E → Option (Option E)))) (v : Option T) (fuel : Nat)
    (h : ∀ p ∈ R, p.2 (ok v) = none) (hf : R.length < fuel) :
    deferrable2 fuel ⟨R.map plainAction, .ok v⟩ =
      some (R.reverse.map (entryAt (ok v)), .ok v) ∧
    ∀ q ∈ R.reverse.map (entryAt (ok v)), q.2 = ok v := by
  constructor
  · have hmem : ∀ p ∈ R.reverse, p.2 (ok v) = none := fun p hp => h p (List.mem_reverse.mp hp)
    have hlen : R.reverse.length < fuel := by simpa using hf
    have hall := drain2_all_ok (ok v) R.reverse fuel hmem hlen
    have hdrain : drain2 fuel (pushAll ([] : List (Action T E)) (R.map plainAction)) (ok v) =
        some (R.reverse.map (entryAt (ok v)), none) := by
      rw [stack_of_plain]
      exact hall
    exact deferrable2_drain_done_ok fuel ⟨R.map plainAction, .ok v⟩ _ hdrain rfl
  · intro q hq
    obtain ⟨p, _, rfl⟩ := List.mem_map.mp hq
    rfl

/-- Claim C6: if the unit of work rejects with the defined error `e` and every
registered callback returns normally on the captured result, the run rejects
with exactly `e` (not wrapped in any other error), and every invoked callback
observes the tuple `[undefined, e]`. -/
theorem c6_failure_passthrough {T E : Type}
    (R : List (Nat × (JSResult T E → Option (Option E)))) (e : E) (fuel : Nat)
    (h : ∀ p ∈ R, p.2 (failure (some e)) = none) (hf : R.length < fuel) :
    deferrable2 fuel ⟨R.map plainAction, .error (some e)⟩ =
      some (R.reverse.map (entryAt (failure (some e))), .error (some e)) ∧
    ∀ q ∈ R.reverse.map (entryAt (failure (some e))), q.2 = failure (some e) := by
  constructor
  · have hmem : ∀ p ∈ R.reverse, p.2 (failure (some e)) = none :=
      fun p hp => h p (List.mem_reverse.mp hp)
    have hlen : R.reverse.length < fuel := by simpa using hf
    have hall := drain2_all_ok (failure (some e)) R.reverse fuel hmem hlen
    have hdrain : drain2 fuel (pushAll ([] : List (Action T E)) (R.map plainAction))
        (failure (some e)) = some (R.reverse.map (entryAt (failure (some e))), none) := by
      rw [stack_of_plain]
      exact hall
    exact deferrable2_drain_done_mainerr fuel ⟨R.map plainAction, .error (some e)⟩ _ e hdrain rfl
  · intro q hq
    obtain ⟨p, _, rfl⟩ := List.mem_map.mp hq
    rfl

/-- Claim C9: if the unit of work rejects with the literal value `undefined`
as the error, the run resolves successfully with the value `undefined` rather
than failing, because failure is detected by testing the error slot of the
captured tuple against `undefined`. -/
theorem c9_undefined_rejection_resolves {T E : Type}
    (R : List (Nat × (JSResult T E → Option (Option E)))) (fuel : Nat)
    (h : ∀ p ∈ R, p.2 (failure none) = none) (hf : R.length < fuel) :
    deferrable2 fuel ⟨R.map plainAction, .error none⟩ =
      some (R.reverse.map (entryAt (failure none)), .ok none) := by
  have hmem : ∀ p ∈ R.reverse, p.2 (failure none) = none :=
    fun p hp => h p (List.mem_reverse.mp hp)
  have hlen : R.reverse.length < fuel := by simpa using hf
  have hall := drain2_all_ok (failure none) R.reverse fuel hmem hlen
  have hdrain : drain2 fuel (pushAll ([] : List (Action T E)) (R.map plainAction))
      (failure none) = some (R.reverse.map (entryAt (failure none)), none) := by
    rw [stack_of_plain]
    exact hall
  exact deferrable2_drain_done_ok fuel ⟨R.map plainAction, .error none⟩ _ hdrain rfl

/-- Claim C3: if, during draining, the callback `x` throws (after the
callbacks `B` registered later than `x`, hence drained before it, all
returned normally), draining stops at `x`: the invocation trace consists of
exactly the reversal of `B` followed by `x`, so none of the callbacks `A`
registered earlier than `x` (still on the stack below it) is ever invoked. -/
theorem c3_fail_stops_drain {T E : Type}
    (A : List (Nat × (JSResult T E → Option (Option E))))
    (x : Nat × (JSResult T E → Option (Option E)))
    (B : List (Nat × (JSResult T E → Option (Option E))))
    (d : Option E) (o : Except (Option E) (Option T)) (fuel : Nat)
    (hB : ∀ p ∈ B, p.2 (wrap o) = none) (hx : x.2 (wrap o) = some d)
    (hf : B.length < fuel) :
    deferrable2 fuel ⟨(A ++ x :: B).map plainAction, o⟩ =
      some (B.reverse.map (entryAt (wrap o)) ++ [entryAt (wrap o) x], .error d) := by
  have hrev : (A ++ x :: B).reverse = B.reverse ++ x :: A.reverse := by simp
  have hmem : ∀ p ∈ B.reverse, p.2 (wrap o) = none := fun p hp => hB p (List.mem_reverse.mp hp)
  have hlen : B.reverse.length < fuel := by simpa using hf
  have hstops := drain2_stops (wrap o) x d hx B.reverse A.reverse fuel hmem hlen
  have hdrain : drain2 fuel (pushAll ([] : List (Action T E)) ((A ++ x :: B).map plainAction))
      (wrap o) = some (B.reverse.map (entryAt (wrap o)) ++ [entryAt (wrap o) x], some d) := by
    rw [stack_of_plain, hrev]
    exact hstops
  exact deferrable2_drain_thrown fuel ⟨(A ++ x :: B).map plainAction, o⟩ _ d hdrain

/-- Claim C7: if the unit of work resolves with `v` and, during draining, the
callback `x` throws `d` (after the callbacks `B` drained before it all
returned normally), the run rejects with exactly `d` — no combination and no
wrapping — and the callbacks `A` registered before `x` are never invoked. -/
theorem c7_deferred_error_alone {T E : Type}
    (A : List (Nat × (JSResult T E → Option (Option E))))
    (x : Nat × (JSResult T E → Option (Option E)))
    (B : List (Nat × (JSResult T E → Option (Option E))))
    (d : Option E) (v : Option T) (fuel : Nat)
    (hB : ∀ p ∈ B, p.2 (ok v) = none) (hx : x.2 (ok v) = some d)
    (hf : B.length < fuel) :
    deferrable2 fuel ⟨(A ++ x :: B).map plainAction, .ok v⟩ =
      some (B.reverse.map (entryAt (ok v)) ++ [entryAt (ok v) x], .error d) := by
  have hrev : (A ++ x :: B).reverse = B.reverse ++ x :: A.reverse := by simp
  have hmem : ∀ p ∈ B.reverse, p.2 (ok v) = none := fun p hp => hB p (List.mem_reverse.mp hp)
  have hlen : B.reverse.length < fuel := by simpa using hf
  have hstops := drain2_stops (ok v) x d hx B.reverse A.reverse fuel hmem hlen
  have hdrain : drain2 fuel (pushAll ([] : List (Action T E)) ((A ++ x :: B).map plainAction))
      (ok v) = some (B.reverse.map (entryAt (ok v)) ++ [entryAt (ok v) x], some d) := by
    rw [stack_of_plain, hrev]
    exact hstops
  exact deferrable2_drain_thrown fuel ⟨(A ++ x :: B).map plainAction, .ok v⟩ _ d hdrain

/-- Claim C2 (amended): the engine never resolves while discarding a defined
error: if the run resolves with `v`, then the unit of work either resolved
with `v` or rejected with the literal `undefined` (in which case `v` is
`undefined`, see C9), and every registered callback returned normally on the
captured result.  Contrapositively, a unit-of-work failure carrying a defined
error, or any invoked callback failure, makes the run reject. -/
theorem c2_never_swallows {T E : Type}
    (R : List (Nat × (JSResult T E → Option (Option E))))
    (o : Except (Option E) (Option T)) (fuel : Nat) (v : Option T)
    (tr : List (Nat × JSResult T E))
    (hres : deferrable2 fuel ⟨R.map plainAction, o⟩ = some (tr, .ok v)) :
    (o = .ok v ∨ (o = .error none ∧ v = none)) ∧ ∀ p ∈ R, p.2 (wrap o) = none := by
  obtain ⟨hdrain, herr, hval⟩ := deferrable2_ok_inv fuel ⟨R.map plainAction, o⟩ tr v hres
  constructor
  · cases o with
    | ok w =>
      left
      simp only [wrap, ok] at hval
      rw [hval]
    | error e =>
      right
      simp only [wrap, failure] at herr hval
      exact ⟨by rw [herr], hval.symm⟩
  · intro p hp
    have hdrain2 : drain2 fuel (pushAll ([] : List (Action T E)) (R.map plainAction)) (wrap o) =
        some (tr, none) := hdrain
    rw [stack_of_plain] at hdrain2
    exact drain2_none_all_ok (wrap o) R.reverse fuel tr hdrain2 p (List.mem_reverse.mpr hp)

/-- Claim C10: a `defer` call made while draining is in progress is not
ignored.  Here the callback named `n` (registered last, drained first)
registers the plain callbacks `M` during its own invocation; the drain loop,
re-checking the stack on every iteration, pops and invokes every callback of
`M` (before the earlier-registered `B`, since they sit on top) before the run
settles. -/
theorem c10_reentrant_defer {T E : Type}
    (B M : List (Nat × (JSResult T E → Option (Option E))))
    (n : Nat) (v : Option T) (fuel : Nat)
    (hB : ∀ p ∈ B, p.2 (ok v) = none) (hM : ∀ p ∈ M, p.2 (ok v) = none)
    (hf : M.length + B.length + 1 < fuel) :
    deferrable2 fuel
        ⟨B.map plainAction ++ [Action.mk n (fun _ => (M.map plainAction, none))], .ok v⟩ =
      some ((n, ok v) :: (M.reverse ++ B.reverse).map (entryAt (ok v)), .ok v) ∧
    ∀ p ∈ M, (p.1, ok v) ∈ (n, ok v) :: (M.reverse ++ B.reverse).map (entryAt (ok v)) := by
  constructor
  · cases fuel with
    | zero => omega
    | succ fuel =>
      have hmem : ∀ p ∈ M.reverse ++ B.reverse, p.2 (ok v) = none := by
        intro p hp
        rcases List.mem_append.mp hp with hp | hp
        · exact hM p (List.mem_reverse.mp hp)
        · exact hB p (List.mem_reverse.mp hp)
      have hlen : (M.reverse ++ B.reverse).length < fuel := by
        simp only [List.length_append, List.length_reverse]
        omega
      have hall := drain2_all_ok (ok v) (M.reverse ++ B.reverse) fuel hmem hlen
      have hstack : pushAll ([] : List (Action T E))
          (B.map plainAction ++ [Action.mk n (fun _ => (M.map plainAction, none))]) =
          Action.mk n (fun _ => (M.map plainAction, none)) :: B.reverse.map plainAction := by
        rw [pushAll_eq]
        simp
      have hpush : pushAll (B.reverse.map plainAction) (M.map plainAction) =
          (M.reverse ++ B.reverse).map plainAction := by
        rw [pushAll_eq]
        simp
      have hstep : drain2 (fuel + 1)
          (Action.mk n (fun _ => (M.map plainAction, none)) :: B.reverse.map plainAction)
          (ok v) = some ((n, ok v) :: (M.reverse ++ B.reverse).map (entryAt (ok v)), none) := by
        simp only [drain2, Action.run, Action.name, hpush, hall]
      have hdrain : drain2 (fuel + 1) (pushAll ([] : List (Action T E))
          (B.map plainAction ++ [Action.mk n (fun _ => (M.map plainAction, none))])) (ok v) =
          some ((n, ok v) :: (M.reverse ++ B.reverse).map (entryAt (ok v)), none) := by
        rw [hstack]
        exact hstep
      exact deferrable2_drain_done_ok (fuel + 1)
        ⟨B.map plainAction ++ [Action.mk n (fun _ => (M.map plainAction, none))], .ok v⟩
        _ hdrain rfl
  · intro p hp
    apply List.mem_cons_of_mem
    exact List.mem_map.mpr ⟨p, List.mem_append.mpr (Or.inl (List.mem_reverse.mpr hp)), rfl⟩

/-- Claim C1, divergence of the code from the claim (and from the
repository's own test at index.ts:251-273): at the failing input — the unit
of work rejects with the error `7` and its single registered callback throws
the error `9` — the second `deferrable` variant (index.ts:139-151) rejects
with the deferred error `9` alone.  No variant under the source constructs an
aggregate carrying both `7` and `9`, which is what the claim requires. -/
theorem c1_code_divergence :
    deferrable2 2 (⟨[plainAction (0, fun _ => some (some 9))], Except.error (some 7)⟩ :
        UnitOfWork Nat Nat) =
      some ([(0, ⟨none, some 7⟩)], Except.error (some 9)) := by
  rfl

/-- Claim C2, counterexample to the claim as stated: a unit of work that
rejects with the literal `undefined` (here with zero registered callbacks)
does fail, yet the run resolves — with the value `undefined` — instead of
rejecting, so the error is discarded. -/
theorem c2_counterexample :
    (⟨[], Except.error none⟩ : UnitOfWork Nat Nat).outcome = Except.error none ∧
    deferrable2 1 (⟨[], Except.error none⟩ : UnitOfWork Nat Nat) =
      some ([], Except.ok none) :=
  ⟨rfl, rfl⟩

/-- Claim C8 (amended): capturing the unit of work's settlement with `wrap`
never itself throws (`wrap` is total by construction), the produced tuple
never has both slots populated, and it has exactly one slot populated
whenever the resolved value (respectively the rejection reason) is itself not
`undefined`. -/
theorem c8_wrap_invariant {T E : Type} :
    (∀ o : Except (Option E) (Option T), (wrap o).value = none ∨ (wrap o).error = none) ∧
    (∀ v : T, wrap (T := T) (E := E) (.ok (some v)) = ⟨some v, none⟩) ∧
    (∀ e : E, wrap (T := T) (E := E) (.error (some e)) = ⟨none, some e⟩) := by
  refine ⟨?_, fun v => rfl, fun e => rfl⟩
  intro o
  cases o with
  | ok v => right; rfl
  | error e => left; rfl

/-- Claim C8, counterexample to the claim as stated: when the unit of work
rejects with the literal `undefined`, the captured tuple is
`[undefined, undefined]` — it carries neither a value nor an error, violating
the "never neither" half of the tagged-union invariant (and the engine then
misclassifies the failure as success, see C9). -/
theorem c8_counterexample :
    (wrap (T := Nat) (E := Nat) (Except.error none)).value = none ∧
    (wrap (T := Nat) (E := Nat) (Except.error none)).error = none :=
  ⟨rfl, rfl⟩

/-- Documentation of the superseded first variant (index.ts:42-59), matching
its own test (`swallows errors thrown by deferred callbacks`): a callback
throws during draining, yet the run still resolves with the unit of work's
value and the remaining draining continues. -/
theorem deferrable1_swallows :
    deferrable1 3
        (⟨[plainAction (0, fun _ => some (some 9)), plainAction (1, fun _ => none)],
          Except.ok (some 1)⟩ : UnitOfWork Nat Nat) =
      some ([(1, ⟨some 1, none⟩), (0, ⟨some 1, none⟩)], Except.ok (some 1)) := by
  rfl

/-! ## Witnesses: the claim theorems applied at concrete inputs -/

/-- Witness for C4 at two callbacks and a resolving unit of work. -/
theorem c4_lifo_order_witness :
    ∃ out, deferrable2 3
        (⟨([(0, fun _ => none), (1, fun _ => none)] :
            List (Nat × (JSResult Nat Nat → Option (Option Nat)))).map plainAction,
          Except.ok (some 3)⟩ : UnitOfWork Nat Nat) =
      some (([(0, fun _ => none), (1, fun _ => none)] :
          List (Nat × (JSResult Nat Nat → Option (Option Nat)))).reverse.map
          (entryAt (wrap (Except.ok (some 3)))), out) :=
  c4_lifo_order (T := Nat) (E := Nat) [(0, fun _ => none), (1, fun _ => none)]
    (Except.ok (some 3)) 3 (by decide) (by decide)

/-- Witness for C5 at two callbacks and the resolved value `3`. -/
theorem c5_success_passthrough_witness :
    deferrable2 3
        (⟨([(0, fun _ => none), (1, fun _ => none)] :
            List (Nat × (JSResult Nat Nat → Option (Option Nat)))).map plainAction,
          Except.ok (some 3)⟩ : UnitOfWork Nat Nat) =
      some (([(0, fun _ => none), (1, fun _ => none)] :
          List (Nat × (JSResult Nat Nat → Option (Option Nat)))).reverse.map
          (entryAt (ok (some 3))), Except.ok (some 3)) ∧
    ∀ q ∈ ([(0, fun _ => none), (1, fun _ => none)] :
        List (Nat × (JSResult Nat Nat → Option (Option Nat)))).reverse.map
        (entryAt (ok (some 3))), q.2 = ok (some 3) :=
  c5_success_passthrough (T := Nat) (E := Nat) [(0, fun _ => none), (1, fun _ => none)]
    (some 3) 3 (by decide) (by decide)

/-- Witness for C6 at two callbacks and the rejection reason `7`. -/
theorem c6_failure_passthrough_witness :
    deferrable2 3
        (⟨([(0, fun _ => none), (1, fun _ => none)] :
            List (Nat × (JSResult Nat Nat → Option (Option Nat)))).map plainAction,
          Except.error (some 7)⟩ : UnitOfWork Nat Nat) =
      some (([(0, fun _ => none), (1, fun _ => none)] :
          List (Nat × (JSResult Nat Nat → Option (Option Nat)))).reverse.map
          (entryAt (failure (some 7))), Except.error (some 7)) ∧
    ∀ q ∈ ([(0, fun _ => none), (1, fun _ => none)] :
        List (Nat × (JSResult Nat Nat → Option (Option Nat)))).reverse.map
        (entryAt (failure (some 7))), q.2 = failure (some 7) :=
  c6_failure_passthrough (T := Nat) (E := Nat) [(0, fun _ => none), (1, fun _ => none)]
    7 3 (by decide) (by decide)

/-- Witness for C9 at one callback. -/
theorem c9_undefined_rejection_resolves_witness :
    deferrable2 2
        (⟨([(0, fun _ => none)] :
            List (Nat × (JSResult Nat Nat → Option (Option Nat)))).map plainAction,
          Except.error none⟩ : UnitOfWork Nat Nat) =
      some (([(0, fun _ => none)] :
          List (Nat × (JSResult Nat Nat → Option (Option Nat)))).reverse.map
          (entryAt (failure none)), Except.ok none) :=
  c9_undefined_rejection_resolves (T := Nat) (E := Nat) [(0, fun _ => none)] 2
    (by decide) (by decide)

/-- Witness for C3: the second-drained callback throws `5`; the
first-registered callback is never invoked. -/
theorem c3_fail_stops_drain_witness :
    deferrable2 2
        (⟨(([(0, fun _ => none)] : List (Nat × (JSResult Nat Nat → Option (Option Nat)))) ++
            (1, fun _ => some (some 5)) :: [(2, fun _ => none)]).map plainAction,
          Except.error (some 7)⟩ : UnitOfWork Nat Nat) =
      some (([(2, fun _ => none)] :
          List (Nat × (JSResult Nat Nat → Option (Option Nat)))).reverse.map
          (entryAt (wrap (Except.error (some 7)))) ++
          [entryAt (wrap (Except.error (some 7))) (1, fun _ => some (some 5))],
        Except.error (some 5)) :=
  c3_fail_stops_drain (T := Nat) (E := Nat) [(0, fun _ => none)] (1, fun _ => some (some 5))
    [(2, fun _ => none)] (some 5) (Except.error (some 7)) 2 (by decide) (by rfl) (by decide)

/-- Witness for C7: the unit of work resolves with `4`, the second-drained
callback throws `5`, and the run rejects with exactly `5`. -/
theorem c7_deferred_error_alone_witness :
    deferrable2 2
        (⟨(([(0, fun _ => none)] : List (Nat × (JSResult Nat Nat → Option (Option Nat)))) ++
            (1, fun _ => some (some 5)) :: [(2, fun _ => none)]).map plainAction,
          Except.ok (some 4)⟩ : UnitOfWork Nat Nat) =
      some (([(2, fun _ => none)] :
          List (Nat × (JSResult Nat Nat → Option (Option Nat)))).reverse.map
          (entryAt (ok (some 4))) ++ [entryAt (ok (some 4)) (1, fun _ => some (some 5))],
        Except.error (some 5)) :=
  c7_deferred_error_alone (T := Nat) (E := Nat) [(0, fun _ => none)] (1, fun _ => some (some 5))
    [(2, fun _ => none)] (some 5) (some 4) 2 (by decide) (by rfl) (by decide)

/-- Witness for C2 (amended) at a resolving run with one callback. -/
theorem c2_never_swallows_witness :
    ((Except.ok (some 5) : Except (Option Nat) (Option Nat)) = Except.ok (some 5) ∨
      ((Except.ok (some 5) : Except (Option Nat) (Option Nat)) = Except.error none ∧
        (some 5 : Option Nat) = none)) ∧
    ∀ p ∈ ([(0, fun _ => none)] : List (Nat × (JSResult Nat Nat → Option (Option Nat)))),
      p.2 (wrap (Except.ok (some 5))) = none :=
  c2_never_swallows (T := Nat) (E := Nat) [(0, fun _ => none)] (Except.ok (some 5)) 2
    (some 5) [(0, ⟨some 5, none⟩)] (by rfl)

/-- Witness for C10: the last-registered callback registers a fresh callback
while the drain is running; the fresh callback is invoked before the run
settles. -/
theorem c10_reentrant_defer_witness :
    deferrable2 4
        (⟨([(1, fun _ => none)] :
            List (Nat × (JSResult Nat Nat → Option (Option Nat)))).map plainAction ++
          [Action.mk 0 (fun _ => (([(2, fun _ => none)] :
            List (Nat × (JSResult Nat Nat → Option (Option Nat)))).map plainAction, none))],
          Except.ok (some 4)⟩ : UnitOfWork Nat Nat) =
      some ((0, ok (some 4)) ::
          ((([(2, fun _ => none)] :
            List (Nat × (JSResult Nat Nat → Option (Option Nat)))).reverse ++
           ([(1, fun _ => none)] :
            List (Nat × (JSResult Nat Nat → Option (Option Nat)))).reverse).map
            (entryAt (ok (some 4)))), Except.ok (some 4)) ∧
    ∀ p ∈ ([(2, fun _ => none)] : List (Nat × (JSResult Nat Nat → Option (Option Nat)))),
      (p.1, ok (some 4)) ∈ (0, ok (some 4)) ::
        ((([(2, fun _ => none)] :
          List (Nat × (JSResult Nat Nat → Option (Option Nat)))).reverse ++
         ([(1, fun _ => none)] :
          List (Nat × (JSResult Nat Nat → Option (Option Nat)))).reverse).map
          (entryAt (ok (some 4)))) :=
  c10_reentrant_defer (T := Nat) (E := Nat) [(1, fun _ => none)] [(2, fun _ => none)]
    0 (some 4) 4 (by decide) (by decide) (by decide)

end Deferrable
